import Mathlib

/-!
Verification of the ef-dl producer–consumer download pipeline.

This development shallowly embeds the SQLite-backed task queue
(`src/workers/task-queue.ts`, class `TaskQueue`), the worker consumer loop
(`src/workers/worker.ts`, `runWorker` / `withDbLockRetry`) and the worker
pool tally (`worker-pool.ts`, `WorkerPool.waitForCompletion`) as pure Lean
functions over an explicit store state, and proves the spec-level claims
about them.

Conventions: the SQLite table `pdf_tasks` is a list of rows; SQL `NULL`
columns are `Option`; timestamps (`Date.now()`) are `Nat` parameters;
status codes follow the code: 0 = Pending, 1 = InProgress, 2 = Completed,
3 = Failed.
-/

namespace EfDl

/-- A task handed to `insertPdfs` (TS interface `PdfTask`). -/
structure PdfTask where
  id : String
  searchTerm : String
  pageNumber : Int
  pdfName : String
  pdfUrl : String
  fileSize : Nat
deriving DecidableEq, Repr

/-- A row of the `pdf_tasks` table (TS interface `PdfTaskRecord`).
`status`: 0 = pending, 1 = in progress, 2 = completed, 3 = failed. -/
structure PdfTaskRecord where
  id : String
  searchTerm : String
  pageNumber : Int
  pdfName : String
  pdfUrl : String
  fileSize : Nat
  status : Nat
  workerId : Option String
  retryCount : Nat
  createdAt : Nat
  startedAt : Option Nat
  completedAt : Option Nat
  error : Option String
deriving DecidableEq, Repr

/-- The durable store: the `pdf_tasks` table plus the `metadata`
key/value table. -/
structure Store where
  tasks : List PdfTaskRecord
  meta : List (String × String)
deriving DecidableEq, Repr

/-- Progress record returned by `getProgress` (TS `QueueProgress`). -/
structure QueueProgress where
  total : Nat
  pending : Nat
  inProgress : Nat
  completed : Nat
  failed : Nat
deriving DecidableEq, Repr

/-- `INSERT OR IGNORE` conflict test: the row conflicts with the new item
when the `id` primary key collides or the `UNIQUE(search_term, pdf_name)`
constraint collides. -/
def rowConflicts (r : PdfTaskRecord) (p : PdfTask) : Bool :=
  r.id == p.id || (r.searchTerm == p.searchTerm && r.pdfName == p.pdfName)

/-- The row created for a fresh item: explicit columns of the `INSERT`
statement in `insertPdfs` (`status` 0, `created_at` the shared `now`),
omitted columns `NULL`, `retry_count` its `DEFAULT 0`. -/
def freshRow (p : PdfTask) (now : Nat) : PdfTaskRecord :=
  { id := p.id, searchTerm := p.searchTerm, pageNumber := p.pageNumber,
    pdfName := p.pdfName, pdfUrl := p.pdfUrl, fileSize := p.fileSize,
    status := 0, workerId := none, retryCount := 0, createdAt := now,
    startedAt := none, completedAt := none, error := none }

/-- One `INSERT OR IGNORE` execution inside the `insertPdfs` loop. -/
def insertOne (now : Nat) (ts : List PdfTaskRecord) (p : PdfTask) :
    List PdfTaskRecord :=
  if ts.any (fun r => rowConflicts r p) then ts else ts ++ [freshRow p now]

/-- `TaskQueue.insertPdfs`: batch `INSERT OR IGNORE`; a single `now`
timestamp is taken before the loop. -/
def Store.insertPdfs (s : Store) (pdfs : List PdfTask) (now : Nat) : Store :=
  { s with tasks := pdfs.foldl (insertOne now) s.tasks }

/-- The claim ordering `ORDER BY page_number, pdf_name` of `claimNextPdf`
(SQLite `BINARY` collation on `pdf_name`, matched by `String` order). -/
def claimLt (r r' : PdfTaskRecord) : Prop :=
  r.pageNumber < r'.pageNumber ∨
    (r.pageNumber = r'.pageNumber ∧ r.pdfName < r'.pdfName)

instance (r r' : PdfTaskRecord) : Decidable (claimLt r r') := by
  unfold claimLt; infer_instance

/-- Accumulator step realizing `ORDER BY ... LIMIT 1`: keep the least row
seen so far (the earlier row on ties). -/
def minStep (acc : Option PdfTaskRecord) (r : PdfTaskRecord) :
    Option PdfTaskRecord :=
  match acc with
  | none => some r
  | some m => if claimLt r m then some r else some m

/-- The row returned by `SELECT * FROM pdf_tasks WHERE status = 0 ORDER BY
page_number, pdf_name LIMIT 1` applied to an already-filtered list. -/
def selectMin (ts : List PdfTaskRecord) : Option PdfTaskRecord :=
  ts.foldl minStep none

/-- The `UPDATE` applied by `claimNextPdf` to the selected row id. -/
def claimUpdate (rowId workerId : String) (now : Nat)
    (r : PdfTaskRecord) : PdfTaskRecord :=
  if r.id == rowId then
    { r with status := 1, workerId := some workerId, startedAt := some now }
  else r

/-- `TaskQueue.claimNextPdf`: select the least pending row, mark it in
progress for `workerId`, and return the record the TS code constructs
(note it rebuilds the record with `completedAt`/`error` set to `null`). -/
def Store.claimNextPdf (s : Store) (workerId : String) (now : Nat) :
    Store × Option PdfTaskRecord :=
  match selectMin (s.tasks.filter (fun r => r.status == 0)) with
  | none => (s, none)
  | some row =>
      ({ s with tasks := s.tasks.map (claimUpdate row.id workerId now) },
       some { row with status := 1, workerId := some workerId,
                       startedAt := some now, completedAt := none,
                       error := none })

/-- `TaskQueue.markComplete`: `status = 2, completed_at = now,
error = NULL` on the row with the given id. -/
def Store.markComplete (s : Store) (taskId : String) (now : Nat) : Store :=
  { s with tasks := s.tasks.map (fun r =>
      if r.id == taskId then
        { r with status := 2, completedAt := some now, error := none }
      else r) }

/-- `TaskQueue.markFailed`: `status = 3, completed_at = now,
error = message` on the row with the given id. -/
def Store.markFailed (s : Store) (taskId : String) (err : String)
    (now : Nat) : Store :=
  { s with tasks := s.tasks.map (fun r =>
      if r.id == taskId then
        { r with status := 3, completedAt := some now, error := some err }
      else r) }

/-- `TaskQueue.resetInProgress`: `status = 0, worker_id = NULL,
started_at = NULL WHERE status = 1 AND search_term = term`. -/
def Store.resetInProgress (s : Store) (term : String) : Store :=
  { s with tasks := s.tasks.map (fun r =>
      if r.status == 1 && r.searchTerm == term then
        { r with status := 0, workerId := none, startedAt := none }
      else r) }

/-- SQL `SUM(CASE WHEN status = st THEN 1 ELSE 0 END)`: `NULL` (`none`)
over an empty row set, the count otherwise. -/
def sqlSumCase (rows : List PdfTaskRecord) (st : Nat) : Option Nat :=
  if rows.isEmpty then none
  else some ((rows.filter (fun r => r.status == st)).length)

/-- `TaskQueue.getProgress`: aggregate counts over the rows for the
search term; `result.x || 0` coerces the `NULL` sums to 0. -/
def Store.getProgress (s : Store) (term : String) : QueueProgress :=
  let rows := s.tasks.filter (fun r => r.searchTerm == term)
  { total := rows.length,
    pending := (sqlSumCase rows 0).getD 0,
    inProgress := (sqlSumCase rows 1).getD 0,
    completed := (sqlSumCase rows 2).getD 0,
    failed := (sqlSumCase rows 3).getD 0 }

/-- `TaskQueue.setMetadata`: `INSERT OR REPLACE` into the key/value
table. -/
def Store.setMetadata (s : Store) (k v : String) : Store :=
  { s with meta := (s.meta.filter (fun kv => kv.1 != k)) ++ [(k, v)] }

/-- `TaskQueue.getMetadata`: lookup, `null` when the key is absent. -/
def Store.getMetadata (s : Store) (k : String) : Option String :=
  (s.meta.find? (fun kv => kv.1 == k)).map (·.2)

/-- States of the store reachable through the public queue operations
from a freshly initialized (cleared) store. -/
inductive Reach : Store → Prop where
  | init : Reach ⟨[], []⟩
  | insert {s} (pdfs : List PdfTask) (now : Nat) :
      Reach s → Reach (s.insertPdfs pdfs now)
  | claim {s} (w : String) (now : Nat) :
      Reach s → Reach (s.claimNextPdf w now).1
  | complete {s} (id : String) (now : Nat) :
      Reach s → Reach (s.markComplete id now)
  | fail {s} (id : String) (err : String) (now : Nat) :
      Reach s → Reach (s.markFailed id err now)
  | reset {s} (term : String) :
      Reach s → Reach (s.resetInProgress term)
  | setMeta {s} (k v : String) :
      Reach s → Reach (s.setMetadata k v)

/-- Per-row invariant maintained by the queue operations: status codes
stay in the 0–3 range, pending rows have no owner, and in-progress rows
always have one. -/
def RowInv (r : PdfTaskRecord) : Prop :=
  r.status ≤ 3 ∧ (r.status = 0 → r.workerId = none) ∧
    (r.status = 1 → r.workerId ≠ none)

/-- Key distinctness demanded by the `id` primary key together with the
`UNIQUE(search_term, pdf_name)` constraint. -/
def KeyDistinct (r r' : PdfTaskRecord) : Prop :=
  r.id ≠ r'.id ∧ (r.searchTerm ≠ r'.searchTerm ∨ r.pdfName ≠ r'.pdfName)

/-- Store invariant: every row satisfies `RowInv` and the table satisfies
its uniqueness constraints. -/
def StoreInv (s : Store) : Prop :=
  (∀ r ∈ s.tasks, RowInv r) ∧ s.tasks.Pairwise KeyDistinct

/-! ### The `withDbLockRetry` wrapper of `worker.ts` -/

/-- Outcome of one invocation of a store action: a returned value, a
SQLite "database is locked" error, or any other (fatal) error. -/
inductive DbOutcome (V : Type) where
  | success (v : V)
  | busy
  | fatal
deriving DecidableEq, Repr

/-- The two error classes the worker distinguishes via
`isDatabaseLocked`: a busy/locked storage error versus a fatal one. -/
inductive DbError where
  | busy
  | fatal
deriving DecidableEq, Repr

/-- Observable result of `withDbLockRetry`: the returned value or the
escaping error, the number of calls made to the action, and the sleeps
performed between calls (ms). -/
structure RetryOut (V : Type) where
  result : Except DbError V
  calls : Nat
  delays : List Nat
deriving Repr

/-- The retry loop body of `withDbLockRetry`; `attempt` is the count of
busy failures so far (the loop variable of the TS code), `act k` the
outcome of the `(k+1)`-th invocation of the action.  The fuel argument
only bounds the recursion; `withDbLockRetry` supplies enough for the
attempt ceiling of 5. -/
def retryAux {V : Type} (act : Nat → DbOutcome V) :
    Nat → Nat → RetryOut V
  | 0, _ => ⟨Except.error DbError.busy, 0, []⟩
  | fuel + 1, attempt =>
    match act attempt with
    | DbOutcome.success v => ⟨Except.ok v, 1, []⟩
    | DbOutcome.fatal => ⟨Except.error DbError.fatal, 1, []⟩
    | DbOutcome.busy =>
        let a := attempt + 1
        if a ≥ 5 then ⟨Except.error DbError.busy, 1, []⟩
        else
          let r := retryAux act fuel a
          ⟨r.result, r.calls + 1, 300 * a :: r.delays⟩

/-- `withDbLockRetry` of `worker.ts`: retry a store action on
"database is locked", sleeping `300 * attempt` ms after the `attempt`-th
busy failure, and give up once `attempt` reaches 5 by rethrowing the
busy error; any non-busy error propagates immediately. -/
def withDbLockRetry {V : Type} (act : Nat → DbOutcome V) : RetryOut V :=
  retryAux act 5 0

/-! ### The worker consumer loop of `worker.ts` -/

/-- What one iteration of the `while (true)` loop in `runWorker` decides:
leave the loop, or go around again (after a sleep when idle). -/
inductive WorkerAction where
  | stop
  | again
deriving DecidableEq, Repr

/-- Observable effect of one worker-loop iteration. -/
structure WorkerStepOut where
  store : Store
  consecutiveErrors : Nat
  action : WorkerAction
  claimed : Option PdfTaskRecord
  downloadDelays : List Nat
deriving Repr

/-- `lastError = error.message || "Unknown error"` of the download
catch-block. -/
def normalizeMsg (m : String) : String :=
  if m = "" then "Unknown error" else m

/-- The `for (attempt = 1; attempt <= 3; attempt++)` download loop of
`runWorker`.  `oracle a` is the outcome of the download collaborator on
attempt `a` (`none` = success, `some msg` = failure with message `msg`).
Returns (success?, last error message, sleeps between attempts).  Called
with `fuel` = remaining attempts, so `attempt < 3` is `0 < fuel`. -/
def downloadAttempts (oracle : Nat → Option String) :
    Nat → Nat → String → Bool × String × List Nat
  | 0, _, lastError => (false, lastError, [])
  | fuel + 1, attempt, lastError =>
    match oracle attempt with
    | none => (true, lastError, [])
    | some msg =>
        let le := normalizeMsg msg
        if 0 < fuel then
          let r := downloadAttempts oracle fuel (attempt + 1) le
          (r.1, r.2.1, 2000 * attempt :: r.2.2)
        else (false, le, [])

/-- One iteration of the worker consumer loop (`runWorker`): claim the
next task; when none is available, leave the loop if the
`json_fetch_complete` metadata flag reads `"true"`, otherwise sleep and
re-poll; when a task is claimed, run up to 3 download attempts, then
mark complete (resetting the consecutive-failure counter) or mark failed
(incrementing it, and leaving the loop once it reaches 5). -/
def workerStep (s : Store) (workerId : String) (consec : Nat)
    (oracle : Nat → Option String) (now : Nat) : WorkerStepOut :=
  match (s.claimNextPdf workerId now).2 with
  | none =>
      if s.getMetadata "json_fetch_complete" = some "true" then
        ⟨(s.claimNextPdf workerId now).1, consec, WorkerAction.stop,
         none, []⟩
      else
        ⟨(s.claimNextPdf workerId now).1, consec, WorkerAction.again,
         none, []⟩
  | some pdf =>
      if (downloadAttempts oracle 3 1 "").1 then
        ⟨((s.claimNextPdf workerId now).1).markComplete pdf.id now, 0,
         WorkerAction.again, some pdf, (downloadAttempts oracle 3 1 "").2.2⟩
      else
        ⟨((s.claimNextPdf workerId now).1).markFailed pdf.id
           (downloadAttempts oracle 3 1 "").2.1 now,
         consec + 1,
         if consec + 1 ≥ 5 then WorkerAction.stop else WorkerAction.again,
         some pdf, (downloadAttempts oracle 3 1 "").2.2⟩

/-! ### The worker pool tally of `worker-pool.ts` -/

/-- The terminal event recorded for one spawned worker process: the
`close` handler (with the process exit `code`, `null` when killed by a
signal) or the `error` handler (spawn failure). -/
inductive WorkerExitEvent where
  | closed (code : Option Int) (signal : Option String)
  | spawnError
deriving DecidableEq, Repr

/-- The exit code stored in `this.results`: `code || 0` for a close
event, `1` for a spawn error. -/
def recordedCode : WorkerExitEvent → Int
  | WorkerExitEvent.closed code _ => code.getD 0
  | WorkerExitEvent.spawnError => 1

/-- Result record of `WorkerPool.waitForCompletion`. -/
structure WorkerPoolResult where
  totalWorkers : Nat
  completedWorkers : Nat
  failedWorkers : Nat
deriving DecidableEq, Repr

/-- One step of the result compilation loop: `workerResult.code === 0`
counts as completed, anything else as failed. -/
def tallyStep (acc : WorkerPoolResult) (e : WorkerExitEvent) :
    WorkerPoolResult :=
  if recordedCode e = 0 then
    { acc with completedWorkers := acc.completedWorkers + 1 }
  else
    { acc with failedWorkers := acc.failedWorkers + 1 }

/-- The tally `waitForCompletion` compiles once every worker has exited:
one recorded event per spawned worker, counted completed on recorded
code 0 and failed otherwise; `totalWorkers` is the (clamped) worker
count. -/
def waitForCompletion (workerCount : Nat)
    (events : List WorkerExitEvent) : WorkerPoolResult :=
  events.foldl tallyStep ⟨workerCount, 0, 0⟩

/-! ### Concrete fixtures used by counterexamples and witnesses -/

def emptyStore : Store := ⟨[], []⟩

def wTask1 : PdfTask := ⟨"t1", "g", 1, "a.pdf", "u1", 10⟩

def wTask2 : PdfTask := ⟨"t2", "g", 2, "b.pdf", "u2", 20⟩

/-- Fixture: both tasks inserted into a fresh store at time 100. -/
def wStore1 : Store := emptyStore.insertPdfs [wTask1, wTask2] 100

/-- Fixture: worker `w1` has claimed the lowest task at time 200. -/
def wStore2 : Store := (wStore1.claimNextPdf "w1" 200).1

/-- Fixture: the claimed task has been marked complete at time 300. -/
def wStore3 : Store := wStore2.markComplete "t1" 300

def wRow1 : PdfTaskRecord := freshRow wTask1 100

def wRow2 : PdfTaskRecord :=
  { wRow1 with status := 1, workerId := some "w1", startedAt := some 200 }

def wRow3 : PdfTaskRecord :=
  { wRow2 with status := 2, completedAt := some 300, error := none }

/-- Fixture: one task inserted, claimed by `w2`, and the producer has
signaled ingestion-complete — a reachable state with an in-progress row,
no pending row, and the flag set. -/
def runStore1 : Store := emptyStore.insertPdfs [wTask1] 100

def runStore2 : Store := (runStore1.claimNextPdf "w2" 150).1

def runStore3 : Store := runStore2.setMetadata "json_fetch_complete" "true"

/-- Fixture: an action that is busy on its first four calls and succeeds
on the fifth. -/
def act42 : Nat → DbOutcome Nat :=
  fun k => if k < 4 then DbOutcome.busy else DbOutcome.success 42

/-- Fixture: a download collaborator that fails every attempt. -/
def boomOracle : Nat → Option String := fun _ => some "boom"

/-- Fixture: exit events of a three-worker pool — a clean exit, a spawn
error, and a signal kill (`code` null). -/
def poolEvents : List WorkerExitEvent :=
  [WorkerExitEvent.closed (some 0) none, WorkerExitEvent.spawnError,
   WorkerExitEvent.closed none (some "SIGKILL")]

def otherRow : PdfTaskRecord := freshRow ⟨"x1", "other", 1, "c.pdf", "u9", 1⟩ 50

/-- Fixture: a store whose only row belongs to a different search term. -/
def otherStore : Store := ⟨[otherRow], []⟩

/-! ### Properties of the claim ordering -/

lemma claimLt_irrefl (r : PdfTaskRecord) : ¬ claimLt r r := by
  rintro (h | ⟨-, h⟩) <;> exact lt_irrefl _ h

lemma claimLt_trans {a b c : PdfTaskRecord} :
    claimLt a b → claimLt b c → claimLt a c := by
  rintro (h₁ | ⟨h₁, h₁'⟩) (h₂ | ⟨h₂, h₂'⟩)
  · exact Or.inl (lt_trans h₁ h₂)
  · exact Or.inl (h₂ ▸ h₁)
  · exact Or.inl (h₁ ▸ h₂)
  · exact Or.inr ⟨h₁.trans h₂, lt_trans h₁' h₂'⟩

lemma not_claimLt_trans {r a m : PdfTaskRecord} :
    ¬ claimLt r a → ¬ claimLt a m → ¬ claimLt r m := by
  unfold claimLt
  intro hra ham hrm
  push_neg at hra ham
  rcases hrm with h | ⟨hp, hn⟩
  · have := hra.1
    have := ham.1
    omega
  · have h₁ : r.pageNumber = a.pageNumber := by
      have := hra.1; have := ham.1; omega
    have h₂ : a.pageNumber = m.pageNumber := by
      have := ham.1; omega
    have hn₁ : a.pdfName ≤ r.pdfName := not_lt.mp (hra.2 h₁)
    have hn₂ : m.pdfName ≤ a.pdfName := not_lt.mp (ham.2 h₂)
    exact absurd (lt_of_lt_of_le hn (hn₂.trans hn₁)) (lt_irrefl _)

lemma claimLt_key_eq {r m : PdfTaskRecord} (h₁ : ¬ claimLt r m)
    (h₂ : ¬ claimLt m r) :
    r.pageNumber = m.pageNumber ∧ r.pdfName = m.pdfName := by
  unfold claimLt at h₁ h₂
  push_neg at h₁ h₂
  have hp : r.pageNumber = m.pageNumber := by
    have := h₁.1; have := h₂.1; omega
  exact ⟨hp, le_antisymm (not_lt.mp (h₂.2 hp.symm)) (not_lt.mp (h₁.2 hp))⟩

/-! ### Properties of the `ORDER BY ... LIMIT 1` selection -/

lemma foldl_minStep_ne_none (ts : List PdfTaskRecord) (a : PdfTaskRecord) :
    ts.foldl minStep (some a) ≠ none := by
  induction ts generalizing a with
  | nil => simp
  | cons r rest ih =>
      rw [List.foldl_cons]
      simp only [minStep]
      split
      · exact ih r
      · exact ih a

lemma selectMin_eq_none_iff (ts : List PdfTaskRecord) :
    selectMin ts = none ↔ ts = [] := by
  constructor
  · intro h
    cases ts with
    | nil => rfl
    | cons r rest =>
        exact absurd (by simpa [selectMin, minStep] using h)
          (foldl_minStep_ne_none rest r)
  · rintro rfl; rfl

lemma foldl_minStep_mem (ts : List PdfTaskRecord) :
    ∀ (a : Option PdfTaskRecord) (m : PdfTaskRecord),
      ts.foldl minStep a = some m → m ∈ ts ∨ a = some m := by
  induction ts with
  | nil => intro a m h; exact Or.inr h
  | cons r rest ih =>
      intro a m h
      rw [List.foldl_cons] at h
      rcases ih (minStep a r) m h with hm | hm
      · exact Or.inl (List.mem_cons_of_mem _ hm)
      · cases a with
        | none =>
            simp only [minStep] at hm
            exact Or.inl (by rw [← Option.some_inj.mp hm]; exact List.mem_cons_self r rest)
        | some b =>
            simp only [minStep] at hm
            split at hm
            · exact Or.inl (by rw [← Option.some_inj.mp hm]; exact List.mem_cons_self r rest)
            · exact Or.inr hm

lemma foldl_minStep_min (ts : List PdfTaskRecord) :
    ∀ (a : Option PdfTaskRecord) (m : PdfTaskRecord),
      ts.foldl minStep a = some m →
      (∀ r ∈ ts, ¬ claimLt r m) ∧ (∀ b, a = some b → ¬ claimLt b m) := by
  induction ts with
  | nil =>
      intro a m h
      refine ⟨by simp, ?_⟩
      rintro b rfl
      rw [Option.some_inj.mp h]
      exact claimLt_irrefl m
  | cons r rest ih =>
      intro a m h
      rw [List.foldl_cons] at h
      obtain ⟨h₁, h₂⟩ := ih (minStep a r) m h
      have hr : ¬ claimLt r m := by
        cases a with
        | none => exact h₂ r rfl
        | some b =>
            by_cases hc : claimLt r b
            · exact h₂ r (by simp [minStep, hc])
            · exact not_claimLt_trans hc (h₂ b (by simp [minStep, hc]))
      refine ⟨?_, ?_⟩
      · intro x hx
        rcases List.mem_cons.mp hx with rfl | hx
        · exact hr
        · exact h₁ x hx
      · rintro b rfl
        by_cases hc : claimLt r b
        · intro hbm
          exact h₂ r (by simp [minStep, hc]) (claimLt_trans hc hbm)
        · exact h₂ b (by simp [minStep, hc])

lemma selectMin_mem {ts : List PdfTaskRecord} {m : PdfTaskRecord}
    (h : selectMin ts = some m) : m ∈ ts :=
  (foldl_minStep_mem ts none m h).resolve_right (by simp)

lemma selectMin_not_lt {ts : List PdfTaskRecord} {m : PdfTaskRecord}
    (h : selectMin ts = some m) : ∀ r ∈ ts, ¬ claimLt r m :=
  (foldl_minStep_min ts none m h).1

/-! ### Preservation of the store invariant -/

lemma keyDistinct_symm : Symmetric KeyDistinct := by
  rintro a b ⟨h₁, h₂⟩
  exact ⟨h₁.symm, h₂.imp Ne.symm Ne.symm⟩

/-- A row update that keeps the key columns keeps the table's uniqueness
constraints. -/
lemma pairwise_key_map {ts : List PdfTaskRecord}
    {f : PdfTaskRecord → PdfTaskRecord}
    (hf : ∀ r, (f r).id = r.id ∧ (f r).searchTerm = r.searchTerm ∧
      (f r).pdfName = r.pdfName)
    (h : ts.Pairwise KeyDistinct) : (ts.map f).Pairwise KeyDistinct := by
  rw [List.pairwise_map]
  refine h.imp ?_
  intro a b hab
  exact ⟨by rw [(hf a).1, (hf b).1]; exact hab.1,
         by rw [(hf a).2.1, (hf b).2.1, (hf a).2.2, (hf b).2.2]; exact hab.2⟩

lemma rowInv_map {ts : List PdfTaskRecord}
    {f : PdfTaskRecord → PdfTaskRecord}
    (hf : ∀ r, RowInv r → RowInv (f r)) (h : ∀ r ∈ ts, RowInv r) :
    ∀ r ∈ ts.map f, RowInv r := by
  intro r hr
  rw [List.mem_map] at hr
  obtain ⟨a, ha, rfl⟩ := hr
  exact hf a (h a ha)

lemma rowInv_freshRow (p : PdfTask) (now : Nat) : RowInv (freshRow p now) := by
  refine ⟨by simp [freshRow], fun _ => rfl, fun h => ?_⟩
  simp [freshRow] at h

lemma storeInv_insertOne {ts : List PdfTaskRecord} {p : PdfTask} {now : Nat}
    (h₁ : ∀ r ∈ ts, RowInv r) (h₂ : ts.Pairwise KeyDistinct) :
    (∀ r ∈ insertOne now ts p, RowInv r) ∧
      (insertOne now ts p).Pairwise KeyDistinct := by
  unfold insertOne
  split
  · exact ⟨h₁, h₂⟩
  · next hc =>
    rw [List.any_eq_true] at hc
    push_neg at hc
    constructor
    · rw [List.forall_mem_append]
      refine ⟨h₁, ?_⟩
      intro r hr
      rw [List.mem_singleton] at hr
      exact hr ▸ rowInv_freshRow p now
    · rw [List.pairwise_append]
      refine ⟨h₂, by simp, ?_⟩
      intro a ha b hb
      rw [List.mem_singleton] at hb
      subst hb
      have hconf : ¬(a.id = p.id ∨
          (a.searchTerm = p.searchTerm ∧ a.pdfName = p.pdfName)) := by
        intro hcontra
        apply hc a ha
        simp only [rowConflicts, Bool.or_eq_true, Bool.and_eq_true,
          beq_iff_eq]
        exact hcontra
      push_neg at hconf
      refine ⟨by simpa [freshRow] using hconf.1, ?_⟩
      by_cases hterm : a.searchTerm = p.searchTerm
      · exact Or.inr (by simpa [freshRow] using hconf.2 hterm)
      · exact Or.inl (by simpa [freshRow] using hterm)

lemma storeInv_insertList {now : Nat} :
    ∀ (pdfs : List PdfTask) (ts : List PdfTaskRecord),
      (∀ r ∈ ts, RowInv r) → ts.Pairwise KeyDistinct →
      (∀ r ∈ pdfs.foldl (insertOne now) ts, RowInv r) ∧
        (pdfs.foldl (insertOne now) ts).Pairwise KeyDistinct := by
  intro pdfs
  induction pdfs with
  | nil => intro ts h₁ h₂; exact ⟨h₁, h₂⟩
  | cons p rest ih =>
      intro ts h₁ h₂
      rw [List.foldl_cons]
      obtain ⟨g₁, g₂⟩ := storeInv_insertOne h₁ h₂
      exact ih _ g₁ g₂

lemma storeInv_insertPdfs {s : Store} (pdfs : List PdfTask) (now : Nat)
    (h : StoreInv s) : StoreInv (s.insertPdfs pdfs now) :=
  storeInv_insertList pdfs s.tasks h.1 h.2

lemma claimUpdate_keys (rowId w : String) (now : Nat) (r : PdfTaskRecord) :
    (claimUpdate rowId w now r).id = r.id ∧
      (claimUpdate rowId w now r).searchTerm = r.searchTerm ∧
      (claimUpdate rowId w now r).pdfName = r.pdfName := by
  unfold claimUpdate
  split <;> exact ⟨rfl, rfl, rfl⟩

lemma claimUpdate_rowInv (rowId w : String) (now : Nat) (r : PdfTaskRecord)
    (h : RowInv r) : RowInv (claimUpdate rowId w now r) := by
  unfold claimUpdate
  split
  · exact ⟨by simp, fun h0 => by simp at h0, fun _ => by simp⟩
  · exact h

lemma storeInv_claimNextPdf {s : Store} (w : String) (now : Nat)
    (h : StoreInv s) : StoreInv (s.claimNextPdf w now).1 := by
  unfold Store.claimNextPdf
  cases hsel : selectMin (s.tasks.filter (fun r => r.status == 0)) with
  | none => exact h
  | some row =>
      exact ⟨rowInv_map (claimUpdate_rowInv row.id w now) h.1,
             pairwise_key_map (claimUpdate_keys row.id w now) h.2⟩

lemma storeInv_markComplete {s : Store} (id : String) (now : Nat)
    (h : StoreInv s) : StoreInv (s.markComplete id now) := by
  unfold Store.markComplete
  refine ⟨rowInv_map ?_ h.1, pairwise_key_map ?_ h.2⟩
  · intro r hr
    split
    · exact ⟨by simp, fun h0 => by simp at h0, fun h1 => by simp at h1⟩
    · exact hr
  · intro r
    split <;> exact ⟨rfl, rfl, rfl⟩

lemma storeInv_markFailed {s : Store} (id err : String) (now : Nat)
    (h : StoreInv s) : StoreInv (s.markFailed id err now) := by
  unfold Store.markFailed
  refine ⟨rowInv_map ?_ h.1, pairwise_key_map ?_ h.2⟩
  · intro r hr
    split
    · exact ⟨by simp, fun h0 => by simp at h0, fun h1 => by simp at h1⟩
    · exact hr
  · intro r
    split <;> exact ⟨rfl, rfl, rfl⟩

lemma storeInv_resetInProgress {s : Store} (term : String)
    (h : StoreInv s) : StoreInv (s.resetInProgress term) := by
  unfold Store.resetInProgress
  refine ⟨rowInv_map ?_ h.1, pairwise_key_map ?_ h.2⟩
  · intro r hr
    split
    · exact ⟨by simp, fun _ => rfl, fun h1 => by simp at h1⟩
    · exact hr
  · intro r
    split <;> exact ⟨rfl, rfl, rfl⟩

/-! ### Progress counting -/

/-- The `|| 0` coalescing makes every aggregate column a plain count. -/
lemma sqlSumCase_getD (rows : List PdfTaskRecord) (st : Nat) :
    (sqlSumCase rows st).getD 0 =
      (rows.filter (fun r => r.status == st)).length := by
  unfold sqlSumCase
  split
  · next h => rw [List.isEmpty_iff.mp h]; rfl
  · rfl

lemma getProgress_eq_counts (s : Store) (g : String) :
    s.getProgress g =
      { total := (s.tasks.filter (fun r => r.searchTerm == g)).length,
        pending := ((s.tasks.filter (fun r => r.searchTerm == g)).filter
          (fun r => r.status == 0)).length,
        inProgress := ((s.tasks.filter (fun r => r.searchTerm == g)).filter
          (fun r => r.status == 1)).length,
        completed := ((s.tasks.filter (fun r => r.searchTerm == g)).filter
          (fun r => r.status == 2)).length,
        failed := ((s.tasks.filter (fun r => r.searchTerm == g)).filter
          (fun r => r.status == 3)).length } := by
  unfold Store.getProgress
  simp only [sqlSumCase_getD]

/-- A list of rows whose statuses lie in 0–3 is partitioned by status. -/
lemma length_filter_statuses (rows : List PdfTaskRecord)
    (h : ∀ r ∈ rows, r.status ≤ 3) :
    rows.length =
      (rows.filter (fun r => r.status == 0)).length +
      (rows.filter (fun r => r.status == 1)).length +
      (rows.filter (fun r => r.status == 2)).length +
      (rows.filter (fun r => r.status == 3)).length := by
  induction rows with
  | nil => rfl
  | cons r rest ih =>
      have hr := h r (List.mem_cons_self r rest)
      have hrest := ih (fun x hx => h x (List.mem_cons_of_mem r hx))
      have hcase : r.status = 0 ∨ r.status = 1 ∨ r.status = 2 ∨
          r.status = 3 := by omega
      rcases hcase with h' | h' | h' | h' <;>
        simp [List.filter_cons, h', hrest] <;> omega

/-- The store invariant holds in every reachable state: status codes stay
in range, pending rows are ownerless, in-progress rows are owned, and the
table's uniqueness constraints hold. -/
lemma reach_storeInv {s : Store} (h : Reach s) : StoreInv s := by
  induction h with
  | init => exact ⟨by simp, by simp⟩
  | insert pdfs now _ ih => exact storeInv_insertPdfs pdfs now ih
  | claim w now _ ih => exact storeInv_claimNextPdf w now ih
  | complete id now _ ih => exact storeInv_markComplete id now ih
  | fail id err now _ ih => exact storeInv_markFailed id err now ih
  | reset term _ ih => exact storeInv_resetInProgress term ih
  | setMeta k v _ ih => exact ih

lemma reach_wStore1 : Reach wStore1 := Reach.insert _ _ Reach.init

lemma reach_wStore2 : Reach wStore2 := Reach.claim _ _ reach_wStore1

lemma reach_wStore3 : Reach wStore3 := Reach.complete _ _ reach_wStore2

lemma resetInProgress_tasks (s : Store) (g : String) :
    (s.resetInProgress g).tasks = s.tasks.map (fun r =>
      if r.status == 1 && r.searchTerm == g then
        { r with status := 0, workerId := none, startedAt := none }
      else r) := rfl

/-- C10: `getProgress` on a store holding no rows for the search term
returns all-zero counts — the `NULL` aggregate sums are coerced to 0
rather than surfacing as null or an error. -/
theorem claim10_getProgress_no_rows (s : Store) (g : String)
    (h : ∀ r ∈ s.tasks, r.searchTerm ≠ g) :
    s.getProgress g = ⟨0, 0, 0, 0, 0⟩ := by
  have hfil : s.tasks.filter (fun r => r.searchTerm == g) = [] := by
    rw [List.filter_eq_nil_iff]
    intro r hr
    simp [h r hr]
  rw [getProgress_eq_counts, hfil]
  rfl

/-- C10 witness: concrete store whose only row belongs to a different
search term. -/
theorem claim10_witness : otherStore.getProgress "g" = ⟨0, 0, 0, 0, 0⟩ :=
  claim10_getProgress_no_rows otherStore "g" (by decide)

/-- C6: `resetInProgress(groupKey)` leaves `getProgress(groupKey)` with
zero in-progress rows; every in-progress row of the group moves to
Pending with owner and start time cleared, and every other row is kept
unchanged. -/
theorem claim6_resetInProgress (s : Store) (g : String) :
    ((s.resetInProgress g).getProgress g).inProgress = 0 ∧
    (∀ r ∈ s.tasks, r.status = 1 → r.searchTerm = g →
      { r with status := 0, workerId := none, startedAt := none } ∈
        (s.resetInProgress g).tasks) ∧
    (∀ r ∈ s.tasks, ¬(r.status = 1 ∧ r.searchTerm = g) →
      r ∈ (s.resetInProgress g).tasks) := by
  refine ⟨?_, ?_, ?_⟩
  · simp only [getProgress_eq_counts]
    rw [List.length_eq_zero, List.filter_eq_nil_iff]
    intro r' hr'
    rw [List.mem_filter, resetInProgress_tasks, List.mem_map] at hr'
    obtain ⟨⟨r, hr, rfl⟩, hterm⟩ := hr'
    by_cases hcond : (r.status == 1 && r.searchTerm == g) = true
    · rw [if_pos hcond]
      simp
    · rw [if_neg hcond] at hterm ⊢
      intro hst
      apply hcond
      rw [Bool.and_eq_true]
      exact ⟨hst, hterm⟩
  · intro r hr h1 hg
    rw [resetInProgress_tasks, List.mem_map]
    refine ⟨r, hr, ?_⟩
    rw [if_pos]
    rw [Bool.and_eq_true]
    exact ⟨beq_iff_eq.mpr h1, beq_iff_eq.mpr hg⟩
  · intro r hr hnot
    rw [resetInProgress_tasks, List.mem_map]
    refine ⟨r, hr, ?_⟩
    rw [if_neg]
    intro hcond
    rw [Bool.and_eq_true] at hcond
    exact hnot ⟨beq_iff_eq.mp hcond.1, beq_iff_eq.mp hcond.2⟩

/-- C7: in every reachable store state,
`total == pending + inProgress + completed + failed`. -/
theorem claim7_progress_conservation (s : Store) (g : String)
    (h : Reach s) :
    (s.getProgress g).total =
      (s.getProgress g).pending + (s.getProgress g).inProgress +
      (s.getProgress g).completed + (s.getProgress g).failed := by
  obtain ⟨hrow, -⟩ := reach_storeInv h
  simp only [getProgress_eq_counts]
  exact length_filter_statuses _
    (fun r hr => (hrow r (List.mem_filter.mp hr).1).1)

/-! ### The claim operation, case analysis -/

lemma claimNextPdf_of_selectMin_none {s : Store} {w : String} {now : Nat}
    (h : selectMin (s.tasks.filter (fun r => r.status == 0)) = none) :
    s.claimNextPdf w now = (s, none) := by
  unfold Store.claimNextPdf
  rw [h]

lemma claimNextPdf_of_selectMin_some {s : Store} {w : String} {now : Nat}
    {row : PdfTaskRecord}
    (h : selectMin (s.tasks.filter (fun r => r.status == 0)) = some row) :
    s.claimNextPdf w now =
      ({ s with tasks := s.tasks.map (claimUpdate row.id w now) },
       some { row with status := 1, workerId := some w,
                       startedAt := some now, completedAt := none,
                       error := none }) := by
  unfold Store.claimNextPdf
  rw [h]

/-- `claimNext` returns none exactly when the store holds no pending
row. -/
lemma claimNextPdf_none_iff (s : Store) (w : String) (now : Nat) :
    (s.claimNextPdf w now).2 = none ↔ ∀ r ∈ s.tasks, r.status ≠ 0 := by
  cases hsel : selectMin (s.tasks.filter (fun r => r.status == 0)) with
  | none =>
      rw [claimNextPdf_of_selectMin_none hsel]
      have hfil := (selectMin_eq_none_iff _).mp hsel
      rw [List.filter_eq_nil_iff] at hfil
      exact iff_of_true rfl
        (fun r hr hst => hfil r hr (by simp [hst]))
  | some row =>
      rw [claimNextPdf_of_selectMin_some hsel]
      have hmem := List.mem_filter.mp (selectMin_mem hsel)
      refine iff_of_false (by simp) ?_
      intro hall
      exact hall row hmem.1 (by simpa using hmem.2)

lemma pending_of_claim_some {s : Store} {w : String} {now : Nat}
    {pdf : PdfTaskRecord} (h : (s.claimNextPdf w now).2 = some pdf) :
    ∃ r ∈ s.tasks, r.status = 0 := by
  by_contra hnone
  push_neg at hnone
  rw [(claimNextPdf_none_iff s w now).mpr hnone] at h
  exact Option.noConfusion h

/-! ### Worker-loop branch equations -/

lemma workerStep_none_flag {s : Store} {w : String} {c : Nat}
    {o : Nat → Option String} {now : Nat}
    (hcl : (s.claimNextPdf w now).2 = none)
    (hflag : s.getMetadata "json_fetch_complete" = some "true") :
    workerStep s w c o now =
      ⟨(s.claimNextPdf w now).1, c, WorkerAction.stop, none, []⟩ := by
  unfold workerStep
  rw [hcl, if_pos hflag]

lemma workerStep_none_noflag {s : Store} {w : String} {c : Nat}
    {o : Nat → Option String} {now : Nat}
    (hcl : (s.claimNextPdf w now).2 = none)
    (hflag : ¬ s.getMetadata "json_fetch_complete" = some "true") :
    workerStep s w c o now =
      ⟨(s.claimNextPdf w now).1, c, WorkerAction.again, none, []⟩ := by
  unfold workerStep
  rw [hcl, if_neg hflag]

lemma workerStep_some_success {s : Store} {w : String} {c : Nat}
    {o : Nat → Option String} {now : Nat} {pdf : PdfTaskRecord}
    (hcl : (s.claimNextPdf w now).2 = some pdf)
    (hd : (downloadAttempts o 3 1 "").1 = true) :
    workerStep s w c o now =
      ⟨((s.claimNextPdf w now).1).markComplete pdf.id now, 0,
       WorkerAction.again, some pdf, (downloadAttempts o 3 1 "").2.2⟩ := by
  unfold workerStep
  rw [hcl]
  simp only [hd, if_true]

lemma workerStep_some_failed {s : Store} {w : String} {c : Nat}
    {o : Nat → Option String} {now : Nat} {pdf : PdfTaskRecord}
    (hcl : (s.claimNextPdf w now).2 = some pdf)
    (hd : (downloadAttempts o 3 1 "").1 = false) :
    workerStep s w c o now =
      ⟨((s.claimNextPdf w now).1).markFailed pdf.id
         (downloadAttempts o 3 1 "").2.1 now,
       c + 1,
       if c + 1 ≥ 5 then WorkerAction.stop else WorkerAction.again,
       some pdf, (downloadAttempts o 3 1 "").2.2⟩ := by
  unfold workerStep
  rw [hcl]
  simp only [hd, Bool.false_eq_true, if_false]

/-- C7 witness at a concrete reachable store. -/
theorem claim7_witness :
    (wStore3.getProgress "g").total =
      (wStore3.getProgress "g").pending +
      (wStore3.getProgress "g").inProgress +
      (wStore3.getProgress "g").completed +
      (wStore3.getProgress "g").failed :=
  claim7_progress_conservation wStore3 "g" reach_wStore3

/-- C2 counterexample: in the reachable state `runStore3` — one
in-progress row, no pending row, ingestion-complete flag set — the
worker-loop iteration exits even though the store still has an
in-progress row and the consecutive-failure count is 0; the claim's
"no in-progress rows remain" condition is not checked by the code. -/
theorem claim2_counterexample :
    Reach runStore3 ∧
    (workerStep runStore3 "w1" 0 (fun _ => none) 500).action =
      WorkerAction.stop ∧
    (runStore3.getProgress "g").inProgress = 1 ∧
    (workerStep runStore3 "w1" 0 (fun _ => none) 500).consecutiveErrors
      = 0 :=
  ⟨Reach.setMeta _ _ (Reach.claim _ _ (Reach.insert _ _ Reach.init)),
   by decide, by decide, by decide⟩

/-- C2 (amended): a worker-loop iteration exits iff (the store has no
pending row and the ingestion-complete metadata flag reads `"true"`) —
in-progress rows are not consulted — or (a task was claimed, every
download attempt failed, and the consecutive-failure count reaches 5);
when no task is claimable and the flag is unset, it re-polls instead of
exiting. -/
theorem claim2_exit_iff (s : Store) (w : String) (consec : Nat)
    (oracle : Nat → Option String) (now : Nat) :
    (workerStep s w consec oracle now).action = WorkerAction.stop ↔
      ((∀ r ∈ s.tasks, r.status ≠ 0) ∧
        s.getMetadata "json_fetch_complete" = some "true") ∨
      ((∃ r ∈ s.tasks, r.status = 0) ∧
        (downloadAttempts oracle 3 1 "").1 = false ∧ 5 ≤ consec + 1) := by
  cases hcl : (s.claimNextPdf w now).2 with
  | none =>
      have hall := (claimNextPdf_none_iff s w now).mp hcl
      have hnex : ¬ ∃ r ∈ s.tasks, r.status = 0 := by
        rintro ⟨r, hr, h0⟩
        exact hall r hr h0
      by_cases hflag : s.getMetadata "json_fetch_complete" = some "true"
      · rw [workerStep_none_flag hcl hflag]
        exact iff_of_true rfl (Or.inl ⟨hall, hflag⟩)
      · rw [workerStep_none_noflag hcl hflag]
        refine iff_of_false (by simp) ?_
        rintro (⟨-, hf⟩ | ⟨hex, -, -⟩)
        · exact hflag hf
        · exact hnex hex
  | some pdf =>
      have hex := pending_of_claim_some hcl
      have hnall : ¬ ∀ r ∈ s.tasks, r.status ≠ 0 := by
        intro hall
        obtain ⟨r, hr, h0⟩ := hex
        exact hall r hr h0
      cases hd : (downloadAttempts oracle 3 1 "").1 with
      | true =>
          rw [workerStep_some_success hcl hd]
          refine iff_of_false (by simp) ?_
          rintro (⟨hall, -⟩ | ⟨-, hdf, -⟩)
          · exact hnall hall
          · exact Bool.noConfusion hdf
      | false =>
          rw [workerStep_some_failed hcl hd]
          by_cases h5 : 5 ≤ consec + 1
          · rw [if_pos h5]
            exact iff_of_true rfl (Or.inr ⟨hex, rfl, h5⟩)
          · rw [if_neg h5]
            refine iff_of_false (by simp) ?_
            rintro (⟨hall, -⟩ | ⟨-, -, h5'⟩)
            · exact hnall hall
            · exact h5 h5'

lemma markFailed_tasks (s : Store) (id err : String) (now : Nat) :
    (s.markFailed id err now).tasks = s.tasks.map (fun r =>
      if r.id == id then
        { r with status := 3, completedAt := some now, error := some err }
      else r) := rfl

/-- C8: when the claim yields a task and the download collaborator fails
all 3 attempts (sleeping `2000 * attempt` ms between attempts, i.e.
2000 then 4000), the worker marks the task Failed — status 3,
`completedAt = now`, `lastError` the final error message — increments
the consecutive-failure counter, and goes around the loop again rather
than exiting, as long as the failure threshold of 5 is not reached. -/
theorem claim8_failed_download (s : Store) (w : String) (consec : Nat)
    (oracle : Nat → Option String) (now : Nat) (pdf : PdfTaskRecord)
    (e1 e2 e3 : String)
    (hclaim : (s.claimNextPdf w now).2 = some pdf)
    (h1 : oracle 1 = some e1) (h2 : oracle 2 = some e2)
    (h3 : oracle 3 = some e3) (hne : e3 ≠ "")
    (hc : consec + 1 < 5) :
    (workerStep s w consec oracle now).action = WorkerAction.again ∧
    (workerStep s w consec oracle now).consecutiveErrors = consec + 1 ∧
    (workerStep s w consec oracle now).downloadDelays = [2000, 4000] ∧
    (workerStep s w consec oracle now).store =
      ((s.claimNextPdf w now).1).markFailed pdf.id e3 now ∧
    (∀ r ∈ (workerStep s w consec oracle now).store.tasks,
      r.id = pdf.id →
      r.status = 3 ∧ r.completedAt = some now ∧ r.error = some e3) := by
  have hd : downloadAttempts oracle 3 1 "" = (false, e3, [2000, 4000]) := by
    simp [downloadAttempts, h1, h2, h3, normalizeMsg, hne]
  have hdf : (downloadAttempts oracle 3 1 "").1 = false := by rw [hd]
  rw [workerStep_some_failed hclaim hdf]
  refine ⟨?_, rfl, ?_, ?_, ?_⟩
  · rw [if_neg (by omega : ¬ consec + 1 ≥ 5)]
  · rw [hd]
  · rw [hd]
  · intro r hr hid
    rw [hd] at hr
    rw [markFailed_tasks, List.mem_map] at hr
    obtain ⟨r₀, hr₀, rfl⟩ := hr
    by_cases h : (r₀.id == pdf.id) = true
    · rw [if_pos h]
      exact ⟨rfl, rfl, rfl⟩
    · rw [if_neg h] at hid ⊢
      exact absurd (beq_iff_eq.mpr hid) h

/-- C5: `withDbLockRetry` — every store mutation wrapped in it is, on a
busy failure, retried after a linear backoff sleep of `300 * attempt` ms
up to the attempt ceiling of 5; a success within the ceiling returns the
value exactly once (for instance 4 busy failures then success on the 5th
call), and exhausting the ceiling surfaces the busy error class, which
is distinct from the fatal error class the caller distinguishes via
`isDatabaseLocked`. -/
theorem claim5_retry_policy (V : Type) (act : Nat → DbOutcome V) :
    (∀ (v : V) (j : Nat), j < 5 → (∀ k, k < j → act k = DbOutcome.busy) →
      act j = DbOutcome.success v →
      withDbLockRetry act =
        ⟨Except.ok v, j + 1,
         (List.range j).map (fun k => 300 * (k + 1))⟩) ∧
    ((∀ k, k < 5 → act k = DbOutcome.busy) →
      withDbLockRetry act =
        ⟨Except.error DbError.busy, 5, [300, 600, 900, 1200]⟩) ∧
    DbError.busy ≠ DbError.fatal := by
  refine ⟨?_, ?_, by decide⟩
  · intro v j hj hbusy hsucc
    interval_cases j
    · simp [withDbLockRetry, retryAux, hsucc]
    · have h0 := hbusy 0 (by omega)
      simp [withDbLockRetry, retryAux, h0, hsucc, List.range_succ]
    · have h0 := hbusy 0 (by omega)
      have h1 := hbusy 1 (by omega)
      simp [withDbLockRetry, retryAux, h0, h1, hsucc, List.range_succ]
    · have h0 := hbusy 0 (by omega)
      have h1 := hbusy 1 (by omega)
      have h2 := hbusy 2 (by omega)
      simp [withDbLockRetry, retryAux, h0, h1, h2, hsucc, List.range_succ]
    · have h0 := hbusy 0 (by omega)
      have h1 := hbusy 1 (by omega)
      have h2 := hbusy 2 (by omega)
      have h3 := hbusy 3 (by omega)
      simp [withDbLockRetry, retryAux, h0, h1, h2, h3, hsucc,
        List.range_succ]
  · intro hb
    have h0 := hb 0 (by omega)
    have h1 := hb 1 (by omega)
    have h2 := hb 2 (by omega)
    have h3 := hb 3 (by omega)
    have h4 := hb 4 (by omega)
    simp [withDbLockRetry, retryAux, h0, h1, h2, h3, h4]

/-- C5 witness: an action that is busy four times and then succeeds
returns its value once after the linear-backoff sleeps. -/
theorem claim5_witness :
    withDbLockRetry act42 =
      ⟨Except.ok 42, 5, [300, 600, 900, 1200]⟩ ∧
    DbError.busy ≠ DbError.fatal := by
  have h := claim5_retry_policy Nat act42
  refine ⟨?_, h.2.2⟩
  have h1 := h.1 42 4 (by omega) (by decide) (by decide)
  simpa using h1

lemma countP_add_countP_not (p : WorkerExitEvent → Bool)
    (l : List WorkerExitEvent) :
    l.countP p + l.countP (fun a => !p a) = l.length := by
  induction l with
  | nil => rfl
  | cons a l ih =>
      rw [List.countP_cons, List.countP_cons]
      cases h : p a <;> simp [h] <;> omega

lemma waitForCompletion_tally :
    ∀ (events : List WorkerExitEvent) (acc : WorkerPoolResult),
      (events.foldl tallyStep acc).totalWorkers = acc.totalWorkers ∧
      (events.foldl tallyStep acc).completedWorkers =
        acc.completedWorkers +
          events.countP (fun e => recordedCode e == 0) ∧
      (events.foldl tallyStep acc).failedWorkers =
        acc.failedWorkers +
          events.countP (fun e => !(recordedCode e == 0)) := by
  intro events
  induction events with
  | nil => intro acc; simp
  | cons e rest ih =>
      intro acc
      rw [List.foldl_cons]
      obtain ⟨ht, hc, hf⟩ := ih (tallyStep acc e)
      by_cases h : recordedCode e = 0
      · have hstep : tallyStep acc e =
            { acc with completedWorkers := acc.completedWorkers + 1 } := by
          simp only [tallyStep, if_pos h]
        rw [hstep] at ht hc hf
        rw [hstep, ht, hc, hf, List.countP_cons, List.countP_cons]
        simp [h]
        omega
      · have hstep : tallyStep acc e =
            { acc with failedWorkers := acc.failedWorkers + 1 } := by
          simp only [tallyStep, if_neg h]
        rw [hstep] at ht hc hf
        rw [hstep, ht, hc, hf, List.countP_cons, List.countP_cons]
        simp [h]
        omega

/-- C9: when `waitForCompletion` compiles its result, every spawned
worker is accounted for exactly once — completed plus failed equals the
total — with a worker counted completed exactly when its recorded exit
code is zero, and a spawn error recorded as code 1, hence a failure. -/
theorem claim9_pool_accounting (workerCount : Nat)
    (events : List WorkerExitEvent) (h : events.length = workerCount) :
    (waitForCompletion workerCount events).completedWorkers +
        (waitForCompletion workerCount events).failedWorkers =
      (waitForCompletion workerCount events).totalWorkers ∧
    (waitForCompletion workerCount events).totalWorkers = workerCount ∧
    (waitForCompletion workerCount events).completedWorkers =
      events.countP (fun e => recordedCode e == 0) ∧
    (waitForCompletion workerCount events).failedWorkers =
      events.countP (fun e => !(recordedCode e == 0)) ∧
    recordedCode WorkerExitEvent.spawnError = 1 := by
  obtain ⟨ht, hc, hf⟩ :=
    waitForCompletion_tally events ⟨workerCount, 0, 0⟩
  have ht' : (waitForCompletion workerCount events).totalWorkers =
      workerCount := by simpa [waitForCompletion] using ht
  have hc' : (waitForCompletion workerCount events).completedWorkers =
      events.countP (fun e => recordedCode e == 0) := by
    simpa [waitForCompletion] using hc
  have hf' : (waitForCompletion workerCount events).failedWorkers =
      events.countP (fun e => !(recordedCode e == 0)) := by
    simpa [waitForCompletion] using hf
  refine ⟨?_, ht', hc', hf', rfl⟩
  have hsum := countP_add_countP_not
    (fun e => recordedCode e == 0) events
  rw [ht', hc', hf']
  omega

/-- C9 witness: a three-worker pool with a clean exit, a spawn error and
a signal kill. -/
theorem claim9_witness :
    (waitForCompletion 3 poolEvents).completedWorkers +
        (waitForCompletion 3 poolEvents).failedWorkers =
      (waitForCompletion 3 poolEvents).totalWorkers ∧
    (waitForCompletion 3 poolEvents).totalWorkers = 3 :=
  ⟨(claim9_pool_accounting 3 poolEvents rfl).1,
   (claim9_pool_accounting 3 poolEvents rfl).2.1⟩

/-- C3 counterexample: in the reachable state `wStore3`, the row
completed through insert → claim → markComplete still carries the
claiming worker's id — `markComplete` never clears `worker_id` — so
`owner != null ⇔ status = InProgress` fails. -/
theorem claim3_counterexample :
    Reach wStore3 ∧
    ∃ r ∈ wStore3.tasks, ¬(r.workerId ≠ none ↔ r.status = 1) :=
  ⟨reach_wStore3, by decide⟩

/-- C3 (amended): in every reachable state, an in-progress row has a
non-null owner and a pending row a null owner; completed and failed rows
may retain the owner recorded when they were claimed, so the claimed
equivalence holds only in these two directions. -/
theorem claim3_owner_invariant (s : Store) (h : Reach s) :
    ∀ r ∈ s.tasks,
      (r.status = 1 → r.workerId ≠ none) ∧
      (r.status = 0 → r.workerId = none) := by
  intro r hr
  obtain ⟨hrow, -⟩ := reach_storeInv h
  exact ⟨(hrow r hr).2.2, (hrow r hr).2.1⟩

/-- C3 witness at the reachable state `wStore2` and its claimed row. -/
theorem claim3_witness : wRow2.workerId ≠ none :=
  (claim3_owner_invariant wStore2 reach_wStore2 wRow2 (by decide)).1 rfl

/-! ### Idempotent insert -/

lemma insertPdfs_single (s : Store) (p : PdfTask) (now : Nat) :
    s.insertPdfs [p] now = { s with tasks := insertOne now s.tasks p } :=
  rfl

/-- Under the table's uniqueness constraint, a present key has exactly
one row. -/
lemma filter_key_length_one {ts : List PdfTaskRecord}
    (hp : ts.Pairwise KeyDistinct) {term name : String}
    (hex : ∃ r ∈ ts, r.searchTerm = term ∧ r.pdfName = name) :
    (ts.filter (fun r =>
      r.searchTerm == term && r.pdfName == name)).length = 1 := by
  induction ts with
  | nil => simp at hex
  | cons a rest ih =>
      rw [List.pairwise_cons] at hp
      by_cases ha : a.searchTerm = term ∧ a.pdfName = name
      · rw [List.filter_cons_of_pos (by simp [ha.1, ha.2])]
        have hnil : rest.filter (fun r =>
            r.searchTerm == term && r.pdfName == name) = [] := by
          rw [List.filter_eq_nil_iff]
          intro r hr hmatch
          rw [Bool.and_eq_true, beq_iff_eq, beq_iff_eq] at hmatch
          rcases (hp.1 r hr).2 with hne | hne
          · exact hne (by rw [ha.1, hmatch.1])
          · exact hne (by rw [ha.2, hmatch.2])
        rw [hnil]
        rfl
      · rw [List.filter_cons_of_neg
          (by simp only [Bool.and_eq_true, beq_iff_eq]; exact ha)]
        apply ih hp.2
        obtain ⟨r, hr, hkey⟩ := hex
        rcases List.mem_cons.mp hr with rfl | hr'
        · exact absurd hkey ha
        · exact ⟨r, hr', hkey⟩

/-- C4: `insertPdfs` is idempotent per `(searchTerm, pdfName)`: when the
key is already present the batch insert changes nothing and exactly one
row for that key remains; a fresh key (with a fresh id) is appended as a
Pending row with `createdAt = now` and no owner. -/
theorem claim4_insert_idempotent (s : Store) (p : PdfTask) (now : Nat)
    (hinv : StoreInv s) :
    ((∃ r ∈ s.tasks, r.searchTerm = p.searchTerm ∧ r.pdfName = p.pdfName) →
      s.insertPdfs [p] now = s ∧
      ((s.insertPdfs [p] now).tasks.filter (fun r =>
        r.searchTerm == p.searchTerm && r.pdfName == p.pdfName)).length
        = 1) ∧
    (((∀ r ∈ s.tasks, ¬(r.searchTerm = p.searchTerm ∧
        r.pdfName = p.pdfName)) ∧ (∀ r ∈ s.tasks, r.id ≠ p.id)) →
      (s.insertPdfs [p] now).tasks = s.tasks ++ [freshRow p now] ∧
      (freshRow p now).status = 0 ∧ (freshRow p now).createdAt = now ∧
      (freshRow p now).workerId = none) := by
  constructor
  · intro hex
    have hnoop : s.insertPdfs [p] now = s := by
      rw [insertPdfs_single]
      obtain ⟨r, hr, hkey⟩ := hex
      have hany : (s.tasks.any (fun x => rowConflicts x p)) = true :=
        List.any_eq_true.mpr
          ⟨r, hr, by simp [rowConflicts, hkey.1, hkey.2]⟩
      simp only [insertOne, hany, if_true]
    refine ⟨hnoop, ?_⟩
    rw [hnoop]
    exact filter_key_length_one hinv.2 hex
  · rintro ⟨hkey, hid⟩
    have hany : (s.tasks.any (fun x => rowConflicts x p)) = false := by
      rw [List.any_eq_false]
      intro r hr hcontra
      simp only [rowConflicts, Bool.or_eq_true, Bool.and_eq_true,
        beq_iff_eq] at hcontra
      rcases hcontra with h | h
      · exact hid r hr h
      · exact hkey r hr h
    refine ⟨?_, rfl, rfl, rfl⟩
    rw [insertPdfs_single]
    simp only [insertOne, hany]
    rfl

/-- C4 witness: re-inserting the already-present first task changes
nothing and leaves one row for its key. -/
theorem claim4_witness :
    wStore1.insertPdfs [wTask1] 999 = wStore1 ∧
    ((wStore1.insertPdfs [wTask1] 999).tasks.filter (fun r =>
      r.searchTerm == wTask1.searchTerm &&
      r.pdfName == wTask1.pdfName)).length = 1 :=
  (claim4_insert_idempotent wStore1 wTask1 999
    (reach_storeInv reach_wStore1)).1 (by decide)

/-! ### Atomic claim of the lowest pending row -/

lemma selectMin_isSome_of_mem {ts : List PdfTaskRecord}
    {r : PdfTaskRecord} (hr : r ∈ ts) :
    ∃ m, selectMin ts = some m := by
  cases hsel : selectMin ts with
  | none =>
      rw [selectMin_eq_none_iff] at hsel
      rw [hsel] at hr
      exact absurd hr (by simp)
  | some m => exact ⟨m, rfl⟩

/-- C1: `claimNextPdf` — when no pending row exists the store is
unchanged and none is returned; otherwise there is a unique pending row
that is lowest in `(pageNumber, pdfName)` order, and the claim returns
exactly that row transitioned to InProgress with `owner = workerId` and
`startedAt = now`, leaving every other row unchanged. -/
theorem claim1_claim_lowest (s : Store) (g w : String) (now : Nat)
    (hR : Reach s) (hT : ∀ r ∈ s.tasks, r.searchTerm = g) :
    ((∀ r ∈ s.tasks, r.status ≠ 0) → s.claimNextPdf w now = (s, none)) ∧
    (∀ m ∈ s.tasks, m.status = 0 →
      (∀ r ∈ s.tasks, r.status = 0 → r = m ∨ claimLt m r) →
      (s.claimNextPdf w now).2 =
        some { m with status := 1, workerId := some w,
                      startedAt := some now, completedAt := none,
                      error := none } ∧
      ({ m with status := 1, workerId := some w,
                startedAt := some now } ∈
        (s.claimNextPdf w now).1.tasks) ∧
      (∀ r ∈ s.tasks, r ≠ m → r ∈ (s.claimNextPdf w now).1.tasks)) ∧
    ((∃ r ∈ s.tasks, r.status = 0) →
      ∃ m ∈ s.tasks, m.status = 0 ∧
        ∀ r ∈ s.tasks, r.status = 0 → r = m ∨ claimLt m r) := by
  obtain ⟨hrow, hkeys⟩ := reach_storeInv hR
  refine ⟨?_, ?_, ?_⟩
  · intro hall
    apply claimNextPdf_of_selectMin_none
    rw [selectMin_eq_none_iff, List.filter_eq_nil_iff]
    intro r hr hst
    rw [beq_iff_eq] at hst
    exact hall r hr hst
  · intro m hm hm0 hmin
    have hmfil : m ∈ s.tasks.filter (fun r => r.status == 0) :=
      List.mem_filter.mpr ⟨hm, by simp [hm0]⟩
    obtain ⟨m₀, hsel⟩ := selectMin_isSome_of_mem hmfil
    have hm₀min := selectMin_not_lt hsel
    have hmem0 := List.mem_filter.mp (selectMin_mem hsel)
    have hmm : m₀ = m := by
      rcases hmin m₀ hmem0.1 (by simpa using hmem0.2) with heq | hlt
      · exact heq
      · exact absurd hlt (hm₀min m hmfil)
    subst hmm
    rw [claimNextPdf_of_selectMin_some hsel]
    refine ⟨rfl, ?_, ?_⟩
    · show { m₀ with status := 1, workerId := some w, startedAt := some now } ∈ s.tasks.map (claimUpdate m₀.id w now)
      refine List.mem_map.mpr ⟨m₀, hm, ?_⟩
      simp [claimUpdate]
    · intro r hr hrm
      show r ∈ s.tasks.map (claimUpdate m₀.id w now)
      have hkd := (List.Pairwise.forall keyDistinct_symm hkeys) hr hm hrm
      refine List.mem_map.mpr ⟨r, hr, ?_⟩
      simp [claimUpdate, hkd.1]
  · rintro ⟨r0, hr0, h00⟩
    have hfil : r0 ∈ s.tasks.filter (fun r => r.status == 0) :=
      List.mem_filter.mpr ⟨hr0, by simp [h00]⟩
    obtain ⟨m₀, hsel⟩ := selectMin_isSome_of_mem hfil
    have hm₀mem := List.mem_filter.mp (selectMin_mem hsel)
    have hm₀min := selectMin_not_lt hsel
    refine ⟨m₀, hm₀mem.1, by simpa using hm₀mem.2, ?_⟩
    intro r hr hst
    by_cases heq : r = m₀
    · exact Or.inl heq
    · refine Or.inr ?_
      have hnot : ¬ claimLt r m₀ :=
        hm₀min r (List.mem_filter.mpr ⟨hr, by simp [hst]⟩)
      by_contra hnlt
      obtain ⟨hpage, hname⟩ := claimLt_key_eq hnot hnlt
      have hkd := (List.Pairwise.forall keyDistinct_symm hkeys)
        hr hm₀mem.1 heq
      rcases hkd.2 with hne | hne
      · exact hne (by rw [hT r hr, hT m₀ hm₀mem.1])
      · exact hne hname

/-- C1 witness: in the two-task store the page-1 row is claimed, marked
in progress for the worker, and returned. -/
theorem claim1_witness :
    (wStore1.claimNextPdf "w1" 200).2 = some wRow2 ∧
    ({ wRow1 with status := 1, workerId := some "w1", startedAt := some 200 } ∈ (wStore1.claimNextPdf "w1" 200).1.tasks) := by
  have h := (claim1_claim_lowest wStore1 "g" "w1" 200 reach_wStore1
    (by decide)).2.1 wRow1 (by decide) rfl (by decide)
  exact ⟨h.1, h.2.1⟩

/-- C8 witness: concrete store, claimed task and an always-failing
download collaborator. -/
theorem claim8_witness :
    (workerStep wStore1 "w1" 0 boomOracle 200).action =
      WorkerAction.again ∧
    (workerStep wStore1 "w1" 0 boomOracle 200).consecutiveErrors = 0 + 1 ∧
    (workerStep wStore1 "w1" 0 boomOracle 200).downloadDelays =
      [2000, 4000] ∧
    (workerStep wStore1 "w1" 0 boomOracle 200).store =
      ((wStore1.claimNextPdf "w1" 200).1).markFailed wRow2.id "boom" 200 ∧
    (∀ r ∈ (workerStep wStore1 "w1" 0 boomOracle 200).store.tasks,
      r.id = wRow2.id →
      r.status = 3 ∧ r.completedAt = some 200 ∧ r.error = some "boom") :=
  claim8_failed_download wStore1 "w1" 0 boomOracle 200 wRow2
    "boom" "boom" "boom" (by decide) rfl rfl rfl (by decide) (by omega)

end EfDl
